import Mathlib

/-!
Verification of the HTMLGen container-composition library (src/HTMLGen.py).

We shallowly embed the Python values the library manipulates as the inductive
type `Val`, and translate the methods of `HTMLContainer`, `TagList`, `Tag` and
`Pseudotag` into Lean functions over `Val`.  Python dictionaries (keyword
attributes) are modelled as insertion-ordered association lists, matching
CPython dict semantics (assignment to an existing key keeps its position,
new keys are appended).  Fallible construction (`Tag.digest` raising
`ValueError`) is modelled with `Except String`.
-/

namespace HTMLGen

/-- Attribute values as `Tag._openTagGuts` distinguishes them: the Python
literal `True` (`v is True`), the literal `False` (`v is False`), and any
other value, represented by its `str()` rendering. -/
inductive AttrVal where
  | tru : AttrVal
  | fls : AttrVal
  | other : String → AttrVal
deriving DecidableEq

/-- Python values as seen by the library:
* `vstr s` — a `str`;
* `vtag name ty contents attrs` — a `Tag` instance (its `extraArgs` are
  `[tagName, tagType]`, stored here as the first two fields);
* `vtaglist contents attrs` — a `TagList` instance;
* `vobj marker elems rep` — any other object: `marker` is `none` when the
  object has no `_HTMLAtomic` attribute and `some b` when it has one of
  truthiness `b`; `elems` is `none` when `iter(x)` raises `TypeError` and
  `some xs` when iteration yields `xs`; `rep` is `str(x)`. -/
inductive Val where
  | vstr : String → Val
  | vtag : String → Nat → List Val → List (String × AttrVal) → Val
  | vtaglist : List Val → List (String × AttrVal) → Val
  | vobj : Option Bool → Option (List Val) → String → Val

/-- `Tag.NORMAL` -/
def NORMAL : Nat := 0
/-- `Tag.LONE` -/
def LONE : Nat := 1
/-- `Tag.FORCED_PAIR` -/
def FORCED_PAIR : Nat := 2

/-- `HTMLContainer._atomicOverride` (line 56): strings are atomic; otherwise
an object is atomic iff it has a truthy `_HTMLAtomic` attribute.  `Tag`
inherits `_HTMLAtomic = True` from `HTMLContainer`; `TagList` overrides it
with `False`. -/
def atomicOverride : Val → Bool
  | .vstr _ => true
  | .vtag _ _ _ _ => true
  | .vtaglist _ _ => false
  | .vobj (some true) _ _ => true
  | .vobj _ _ _ => false

/-- What `iter(x)` yields, or `none` when `iter(x)` raises `TypeError`.
Strings iterate over their one-character substrings; `Tag` and `TagList`
iterate over `contents` (via the old `__getitem__` sequence protocol). -/
def iterOf : Val → Option (List Val)
  | .vstr s => some (s.data.map fun c => .vstr (String.singleton c))
  | .vtag _ _ c _ => some c
  | .vtaglist c _ => some c
  | .vobj _ elems _ => elems

mutual
/-- `HTMLContainer._r_flatten` (lines 63–73), written functionally: the list
of elements the call appends to `self.contents`.  The constructor cases
mirror `_atomicOverride` and the `iter`/`TypeError` branches: strings and
`Tag`s (and any object with a truthy `_HTMLAtomic`) are appended as-is;
`TagList`s are iterated; other objects are iterated when iterable, else
appended as-is. -/
def r_flatten : Val → List Val
  | .vstr s => [.vstr s]
  | .vtag n ty c a => [.vtag n ty c a]
  | .vtaglist c _ => flattenList c
  | .vobj (some true) elems r => [.vobj (some true) elems r]
  | .vobj m none r => [.vobj m none r]
  | .vobj _ (some xs) _ => flattenList xs

/-- The `for obj in temp: self._r_flatten(obj)` loop of
`HTMLContainer.__init__` (lines 78–79): flatten each argument in order. -/
def flattenList : List Val → List Val
  | [] => []
  | x :: xs => r_flatten x ++ flattenList xs
end

/-- Python's `sep.join(pieces)`. -/
def sjoin (sep : String) : List String → String
  | [] => ""
  | [x] => x
  | x :: xs => x ++ sep ++ sjoin sep xs

/-- `HTMLContainer.spacer` (line 46). -/
def spacer : String := ""

/-- `HTMLContainer._specialAttrs` lookup (lines 49–52): `_specialAttrs.get(k, k)`. -/
def specialAttr (k : String) : String :=
  if k = "for_" then "for" else if k = "class_" then "class" else k

/-- CPython dict assignment `d[k] = v`: updates the value in place when the
key is present (keeping its position), else appends the pair at the end. -/
def dictInsert (d : List (String × AttrVal)) (k : String) (v : AttrVal) :
    List (String × AttrVal) :=
  if k ∈ d.map Prod.fst then d.map (fun p => if p.1 = k then (k, v) else p)
  else d ++ [(k, v)]

/-- `tempAttrs = self.attrs.copy(); tempAttrs.update(newAttrs)`
(`HTMLContainer.__call__`, lines 83–84). -/
def dictUpdate (d newAttrs : List (String × AttrVal)) : List (String × AttrVal) :=
  newAttrs.foldl (fun acc p => dictInsert acc p.1 p.2) d

/-- The dict comprehension of `HTMLContainer.__init__` (line 80):
`{self._specialAttrs.get(k, k) : v for k, v in attrs.items()}`. -/
def normalizeAttrs (attrs : List (String × AttrVal)) : List (String × AttrVal) :=
  attrs.foldl (fun acc p => dictInsert acc (specialAttr p.1) p.2) []

/-- The loop of `Tag._openTagGuts` (lines 206–210): the strings appended to
`temp` after the tag name.  `v is True` yields the bare name, `v is False`
yields nothing, anything else yields `name="str(v)"`. -/
def attrsTemp : List (String × AttrVal) → List String
  | [] => []
  | (k, .tru) :: rest => k :: attrsTemp rest
  | (_, .fls) :: rest => attrsTemp rest
  | (k, .other s) :: rest => (k ++ "=\"" ++ s ++ "\"") :: attrsTemp rest

/-- `Tag._openTagGuts` (lines 204–211): `' '.join([tagName] + attrPieces)`. -/
def openTagGuts (name : String) (attrs : List (String × AttrVal)) : String :=
  sjoin " " (name :: attrsTemp attrs)

/-- `Tag.wrap` (lines 213–218). -/
def tagWrap (name : String) (ty : Nat) (attrs : List (String × AttrVal))
    (contents : List Val) (contentStr : String) : String :=
  if !contents.isEmpty ∨ ty = FORCED_PAIR then
    "<" ++ openTagGuts name attrs ++ ">" ++ spacer ++ contentStr ++ spacer
      ++ "</" ++ name ++ ">"
  else if ty = LONE then
    "<" ++ openTagGuts name attrs ++ ">"
  else
    "<" ++ openTagGuts name attrs ++ " />"

mutual
/-- `HTMLContainer.__str__` (lines 87–88):
`self.wrap(self.spacer.join(map(str, self.contents)))`.  `TagList.wrap` is
the identity (lines 154–155), `Tag.wrap` is `tagWrap`; `str` of a string is
itself and `str` of any other object is its stored rendering. -/
def valStr : Val → String
  | .vstr s => s
  | .vobj _ _ r => r
  | .vtaglist c _ => sjoin spacer (strList c)
  | .vtag n ty c a => tagWrap n ty a c (sjoin spacer (strList c))

/-- `map(str, contents)` over a contents list. -/
def strList : List Val → List String
  | [] => []
  | x :: xs => valStr x :: strList xs
end

/-- The successful path of `Tag(...)`: `HTMLContainer.__init__` (lines 75–80)
with `Tag.digest` (lines 198–202); contents flattened, attribute keys
remapped through `_specialAttrs`, `extraArgs = [tagName, tagType]`. -/
def tagNew (name : String) (ty : Nat) (contents : List Val)
    (attrs : List (String × AttrVal)) : Val :=
  .vtag name ty (flattenList contents) (normalizeAttrs attrs)

/-- `Tag(name, ty, *contents, **attrs)`: `Tag.digest` raises `ValueError`
for an unrecognized `tagType` (lines 200–201), before `__init__` flattens
any contents (line 76 precedes lines 77–79). -/
def mkTag (name : String) (ty : Nat) (contents : List Val)
    (attrs : List (String × AttrVal)) : Except String Val :=
  if ty = NORMAL ∨ ty = LONE ∨ ty = FORCED_PAIR then
    .ok (tagNew name ty contents attrs)
  else
    .error ("Unknown tagType " ++ toString ty ++ " in Tag.__init__ (" ++ name ++ ")")

/-- `TagList(*contents, **attrs)`: `TagList.digest` (lines 151–152) never
fails and keeps no extra arguments. -/
def tagListNew (contents : List Val) (attrs : List (String × AttrVal)) : Val :=
  .vtaglist (flattenList contents) (normalizeAttrs attrs)

/-- `HTMLContainer.__call__` (lines 82–85) for a `Tag` receiver with fields
`(name, ty, contents, attrs)`:
`type(self)(*(self.extraArgs + self.contents + list(newContents)), **tempAttrs)`
with `extraArgs = [name, ty]` and `tempAttrs = attrs.copy().update(newAttrs)`. -/
def callTag (name : String) (ty : Nat) (contents : List Val)
    (attrs : List (String × AttrVal)) (newContents : List Val)
    (newAttrs : List (String × AttrVal)) : Except String Val :=
  mkTag name ty (contents ++ newContents) (dictUpdate attrs newAttrs)

/-- `HTMLContainer.__call__` for a `TagList` receiver (`extraArgs = []`). -/
def callTagList (contents : List Val) (attrs : List (String × AttrVal))
    (newContents : List Val) (newAttrs : List (String × AttrVal)) : Val :=
  tagListNew (contents ++ newContents) (dictUpdate attrs newAttrs)

/-- An element `_r_flatten` leaves alone: atomic per `_atomicOverride`, or
not iterable. -/
def flatVal (x : Val) : Bool :=
  atomicOverride x || (iterOf x).isNone

/-- Keys already in their HTML form (fixed points of the `_specialAttrs`
remap). -/
def keysNormed (l : List (String × AttrVal)) : Prop :=
  ∀ p ∈ l, specialAttr p.1 = p.1

/-- The invariant of a stored attribute dict: distinct keys, all in HTML
form. -/
def normedAttrs (l : List (String × AttrVal)) : Prop :=
  (l.map Prod.fst).Nodup ∧ keysNormed l

/-- A `Pseudotag` instance after `Pseudotag.__init__` (lines 361–365). -/
structure PseudotagObj where
  inner : Val
  outer : Val
  contents : List Val
  attrs : List (String × AttrVal)

/-- The `contents` field of a container value. -/
def containerContents : Val → List Val
  | .vtag _ _ c _ => c
  | .vtaglist c _ => c
  | _ => []

/-- `Pseudotag.__init__` (lines 361–365), parameterized by the result of the
subclass's `heart` (the inner container plus extra args) and its `skeleton`
function: `contents` is aliased to `inner.contents` (line 364) and the
keyword attributes are remapped exactly as in `HTMLContainer.__init__`. -/
def pseudotagNew (inner : Val) (extra : List Val)
    (skeleton : Val → List Val → Val) (attrs : List (String × AttrVal)) :
    PseudotagObj :=
  { inner := inner
    outer := skeleton inner extra
    contents := containerContents inner
    attrs := normalizeAttrs attrs }

/-- `Pseudotag.__str__` (lines 367–368): `str(self.outer)`. -/
def pseudotagStr (p : PseudotagObj) : String :=
  valStr p.outer

/-- `HTMLContainer.__getitem__` (lines 105–106) on a `Pseudotag`:
`self.contents[index]`. -/
def pseudotagGetItem (p : PseudotagObj) (i : Nat) : Option Val :=
  p.contents.get? i

/-- `HTMLContainer.__call__` dispatched on the receiver's concrete class;
calling a value that is not an `HTMLContainer` raises `TypeError` in
Python. -/
def callVal (c : Val) (newContents : List Val)
    (newAttrs : List (String × AttrVal)) : Except String Val :=
  match c with
  | .vtag n ty cs a => callTag n ty cs a newContents newAttrs
  | .vtaglist cs a => .ok (callTagList cs a newContents newAttrs)
  | .vstr _ => .error "object is not callable"
  | .vobj _ _ _ => .error "object is not callable"

/-- `LABIN(labelText, name, labelAttrs, **attrs)` with `labelAttrs` passed
positionally.  `LABIN.heart` (lines 381–382) returns the genuine 4-tuple
`(INPUT(name = name, **kwargs), labelText, name, labelAttrs)`, so the
starred unpacking at `Pseudotag.__init__` line 362 is plain positional
tuple unpacking: `inner` is the `INPUT` tag (the prebuilt
`Tag('input', Tag.NORMAL)` of line 287 extended by `__call__`), and the
remaining components go to `LABIN.skeleton` (lines 384–388), which builds
`TagList(LABEL(for_ = name, **labelAttrs)(labelText), inner)`.  Lines
363–365 then set `outer`, alias `contents` to `inner.contents`, and remap
the keyword attributes. -/
def labinNew (labelText : Val) (nm : String)
    (labelAttrs attrs : List (String × AttrVal)) :
    Except String PseudotagObj := do
  let inner ← callTag "input" NORMAL [] [] [] (("name", .other nm) :: attrs)
  let lbl0 ← callTag "label" NORMAL [] [] [] (("for_", .other nm) :: labelAttrs)
  let lbl ← callVal lbl0 [labelText] []
  let outer := tagListNew [lbl, inner] []
  return { inner := inner
           outer := outer
           contents := containerContents inner
           attrs := normalizeAttrs attrs }

/-- Spec §4.4, per-attribute open-tag piece, following the spec's words:
"boolean-true attribute → bare name with no value; boolean-false → omitted
entirely; any other value → `name="value"`, no escaping performed". -/
def specAttrPiece (k : String) : AttrVal → Option String
  | .tru => some k
  | .fls => none
  | .other s => some (k ++ "=\"" ++ s ++ "\"")

/-- Spec §4.4, Element rendering, following the spec's words: build the open
tag from the tag name and attributes, then: contents non-empty or
ALWAYS-PAIRED → `<open>innerText</close>`; SELF-CLOSING-ONLY →
`<open>` with no slash; otherwise (NORMAL, empty) → `<open />`. -/
def specElementRender (name : String) (kind : Nat)
    (attrs : List (String × AttrVal)) (contentsNonempty : Bool)
    (innerText : String) : String :=
  let openText := sjoin " " (name :: attrs.filterMap fun p => specAttrPiece p.1 p.2)
  if contentsNonempty || kind = FORCED_PAIR then
    "<" ++ openText ++ ">" ++ innerText ++ "</" ++ name ++ ">"
  else if kind = LONE then
    "<" ++ openText ++ ">"
  else
    "<" ++ openText ++ " />"

/-! ### Helper lemmas: strings -/

theorem str_append_left_cancel {a b c : String} (h : a ++ b = a ++ c) : b = c := by
  have hd := congrArg String.data h
  simp only [String.data_append] at hd
  exact String.ext (List.append_cancel_left hd)

theorem str_append_right_cancel {a b c : String} (h : a ++ c = b ++ c) : a = b := by
  have hd := congrArg String.data h
  simp only [String.data_append] at hd
  exact String.ext (List.append_cancel_right hd)

theorem str_length_pos_of_ne {s : String} (h : s ≠ "") : 0 < s.length := by
  have hd : s.data ≠ [] := fun hd => h (String.ext (by simp [hd]))
  exact List.length_pos.mpr hd

theorem str_ne_of_length_ne {s t : String} (h : s.length ≠ t.length) : s ≠ t :=
  fun he => h (he ▸ rfl)

/-! ### Helper lemmas: `sjoin` -/

theorem sjoin_cons (sep : String) (x : String) {l : List String} (h : l ≠ []) :
    sjoin sep (x :: l) = x ++ sep ++ sjoin sep l := by
  cases l with
  | nil => exact absurd rfl h
  | cons y ys => rfl

/-- `sjoin sep l` with a trailing separator appended to every element;
the prefix contributed by `l` when further elements follow. -/
def sjoinPre (sep : String) : List String → String
  | [] => ""
  | x :: xs => x ++ sep ++ sjoinPre sep xs

theorem sjoin_append (sep : String) (A : List String) {B : List String}
    (hB : B ≠ []) : sjoin sep (A ++ B) = sjoinPre sep A ++ sjoin sep B := by
  induction A with
  | nil => simp [sjoinPre, String.empty_append]
  | cons a A ih =>
    have hAB : A ++ B ≠ [] := by
      intro h
      rcases List.append_eq_nil.mp h with ⟨_, h2⟩
      exact hB h2
    rw [List.cons_append, sjoin_cons sep a hAB, ih]
    simp [sjoinPre, String.append_assoc]

theorem sjoinPre_length (sep : String) {l : List String} (h : l ≠ []) :
    (sjoinPre sep l).length = (sjoin sep l).length + sep.length := by
  induction l with
  | nil => exact absurd rfl h
  | cons x xs ih =>
    cases xs with
    | nil => simp [sjoinPre, sjoin, String.length_append]
    | cons y ys =>
      rw [sjoinPre, sjoin_cons sep x (by simp)]
      rw [String.length_append, String.length_append, String.length_append,
        String.length_append, ih (by simp)]
      ring

theorem sjoinPre_empty_sep (l : List String) : sjoinPre "" l = sjoin "" l := by
  induction l with
  | nil => rfl
  | cons x xs ih =>
    cases xs with
    | nil => simp [sjoinPre, sjoin, String.append_empty]
    | cons y ys =>
      rw [sjoinPre, ih, sjoin_cons "" x (by simp)]

theorem sjoin_empty_sep_append (A B : List String) :
    sjoin "" (A ++ B) = sjoin "" A ++ sjoin "" B := by
  cases B with
  | nil => simp [String.append_empty, sjoin]
  | cons b bs =>
    rw [sjoin_append "" A (by simp), sjoinPre_empty_sep]

/-! ### Helper lemmas: flattening -/

theorem flattenList_append (xs ys : List Val) :
    flattenList (xs ++ ys) = flattenList xs ++ flattenList ys := by
  induction xs with
  | nil => simp [flattenList]
  | cons x xs ih => simp [flattenList, ih]

theorem flat_flattenList : ∀ (l : List Val), ∀ y ∈ flattenList l, flatVal y = true :=
  flattenList.induct
    (fun x => ∀ y ∈ r_flatten x, flatVal y = true)
    (fun l => ∀ y ∈ flattenList l, flatVal y = true)
    (by intro s y hy; simp [r_flatten] at hy; subst hy; rfl)
    (by intro n ty c a y hy; simp [r_flatten] at hy; subst hy; rfl)
    (by intro c a ih y hy; simp only [r_flatten] at hy; exact ih y hy)
    (by
      intro elems r y hy
      rcases elems with _ | xs <;>
        · simp [r_flatten] at hy; subst hy; rfl)
    (by
      intro m r hm y hy
      rcases m with _ | b
      · simp [r_flatten] at hy; subst hy
        simp [flatVal, iterOf]
      · cases b
        · simp [r_flatten] at hy; subst hy
          simp [flatVal, iterOf]
        · exact absurd rfl hm)
    (by
      intro a xs r ha ih y hy
      rcases a with _ | b
      · simp only [r_flatten] at hy; exact ih y hy
      · cases b
        · simp only [r_flatten] at hy; exact ih y hy
        · exact absurd rfl ha)
    (by intro y hy; simp [flattenList] at hy)
    (by
      intro x xs ih1 ih2 y hy
      simp only [flattenList, List.mem_append] at hy
      rcases hy with hy | hy
      · exact ih1 y hy
      · exact ih2 y hy)

theorem r_flatten_of_flat {x : Val} (h : flatVal x = true) : r_flatten x = [x] := by
  cases x with
  | vstr s => rfl
  | vtag n ty c a => rfl
  | vtaglist c a => simp [flatVal, atomicOverride, iterOf] at h
  | vobj m elems r =>
    match m, elems with
    | some true, none => rfl
    | some true, some xs => rfl
    | none, none => rfl
    | some false, none => rfl
    | none, some xs => simp [flatVal, atomicOverride, iterOf] at h
    | some false, some xs => simp [flatVal, atomicOverride, iterOf] at h

theorem flattenList_of_flat {l : List Val} (h : ∀ x ∈ l, flatVal x = true) :
    flattenList l = l := by
  induction l with
  | nil => rfl
  | cons x xs ih =>
    rw [flattenList, r_flatten_of_flat (h x (by simp)),
      ih (fun y hy => h y (by simp [hy]))]
    rfl

theorem flattenList_idem (l : List Val) :
    flattenList (flattenList l) = flattenList l :=
  flattenList_of_flat (flat_flattenList l)

/-! ### Helper lemmas: attribute dictionaries -/

theorem dictInsert_not_mem {d : List (String × AttrVal)} {k : String} (v : AttrVal)
    (h : k ∉ d.map Prod.fst) : dictInsert d k v = d ++ [(k, v)] := by
  simp [dictInsert, h]

theorem dictInsert_replace {pre post : List (String × AttrVal)} {k : String}
    (v v' : AttrVal) (hpre : k ∉ pre.map Prod.fst) (hpost : k ∉ post.map Prod.fst) :
    dictInsert (pre ++ (k, v) :: post) k v' = pre ++ (k, v') :: post := by
  have hmem : k ∈ (pre ++ (k, v) :: post).map Prod.fst := by simp
  have hp : pre.map (fun p => if p.1 = k then (k, v') else p) = pre := by
    conv_rhs => rw [← List.map_id pre]
    apply List.map_congr_left
    intro p hp
    have hne : p.1 ≠ k := fun he => hpre (he ▸ List.mem_map_of_mem Prod.fst hp)
    simp [hne]
  have hq : post.map (fun p => if p.1 = k then (k, v') else p) = post := by
    conv_rhs => rw [← List.map_id post]
    apply List.map_congr_left
    intro p hp
    have hne : p.1 ≠ k := fun he => hpost (he ▸ List.mem_map_of_mem Prod.fst hp)
    simp [hne]
  simp only [dictInsert, if_pos hmem, List.map_append, List.map_cons]
  rw [hp, hq]
  simp

theorem map_fst_dictInsert_mem {d : List (String × AttrVal)} {k : String}
    (v : AttrVal) (h : k ∈ d.map Prod.fst) :
    (dictInsert d k v).map Prod.fst = d.map Prod.fst := by
  simp only [dictInsert, if_pos h, List.map_map]
  apply List.map_congr_left
  intro p _
  by_cases hp : p.1 = k <;> simp [hp]

theorem normedAttrs_dictInsert {d : List (String × AttrVal)} {k : String}
    (v : AttrVal) (hd : normedAttrs d) (hk : specialAttr k = k) :
    normedAttrs (dictInsert d k v) := by
  by_cases h : k ∈ d.map Prod.fst
  · have hform : dictInsert d k v = d.map (fun p => if p.1 = k then (k, v) else p) := by
      simp [dictInsert, h]
    constructor
    · rw [map_fst_dictInsert_mem v h]; exact hd.1
    · intro p hp
      rw [hform, List.mem_map] at hp
      rcases hp with ⟨q, hq, hpq⟩
      by_cases hqk : q.1 = k
      · rw [if_pos hqk] at hpq
        rw [← hpq]
        exact hk
      · rw [if_neg hqk] at hpq
        rw [← hpq]
        exact hd.2 q hq
  · rw [dictInsert_not_mem v h]
    constructor
    · have hkeys : (d ++ [(k, v)]).map Prod.fst = d.map Prod.fst ++ [k] := by simp
      rw [hkeys, List.nodup_append]
      refine ⟨hd.1, List.nodup_singleton k, ?_⟩
      intro a ha hb
      simp at hb
      subst hb
      exact h ha
    · intro p hp
      rcases List.mem_append.mp hp with hp | hp
      · exact hd.2 p hp
      · simp at hp
        subst hp
        exact hk

theorem normedAttrs_dictUpdate {d na : List (String × AttrVal)}
    (hd : normedAttrs d) (hna : keysNormed na) : normedAttrs (dictUpdate d na) := by
  induction na generalizing d with
  | nil => exact hd
  | cons p rest ih =>
    have h1 : normedAttrs (dictInsert d p.1 p.2) :=
      normedAttrs_dictInsert p.2 hd (hna p (by simp))
    exact ih h1 (fun q hq => hna q (by simp [hq]))

theorem foldl_norm_aux : ∀ (l acc : List (String × AttrVal)),
    (∀ p ∈ l, p.1 ∉ acc.map Prod.fst) → normedAttrs l →
    List.foldl (fun acc p => dictInsert acc (specialAttr p.1) p.2) acc l = acc ++ l := by
  intro l
  induction l with
  | nil => intro acc _ _; simp
  | cons p rest ih =>
    intro acc hdisj hnorm
    have hk : specialAttr p.1 = p.1 := hnorm.2 p (by simp)
    have hp : p.1 ∉ acc.map Prod.fst := hdisj p (by simp)
    have hknotrest : p.1 ∉ rest.map Prod.fst := by
      have := hnorm.1
      simp only [List.map_cons, List.nodup_cons] at this
      exact this.1
    rw [List.foldl_cons, hk, dictInsert_not_mem p.2 hp]
    rw [ih (acc ++ [(p.1, p.2)])
      (fun q hq => by
        simp only [List.map_append, List.mem_append] at *
        rintro (h1 | h2)
        · exact hdisj q (by simp [hq]) h1
        · simp at h2
          exact hknotrest (h2 ▸ List.mem_map_of_mem Prod.fst hq))
      ⟨(by simpa using (List.nodup_cons.mp (by simpa using hnorm.1)).2),
        fun q hq => hnorm.2 q (by simp [hq])⟩]
    simp

theorem normalizeAttrs_of_normed {l : List (String × AttrVal)}
    (h : normedAttrs l) : normalizeAttrs l = l := by
  have := foldl_norm_aux l [] (by simp) h
  simpa [normalizeAttrs] using this

/-! ### Helper lemmas: rendering -/

theorem attrsTemp_append (l1 l2 : List (String × AttrVal)) :
    attrsTemp (l1 ++ l2) = attrsTemp l1 ++ attrsTemp l2 := by
  induction l1 with
  | nil => rfl
  | cons p rest ih =>
    rcases p with ⟨k, v⟩
    cases v <;> simp [attrsTemp, ih]

theorem attrsTemp_eq_filterMap (l : List (String × AttrVal)) :
    attrsTemp l = l.filterMap fun p => specAttrPiece p.1 p.2 := by
  induction l with
  | nil => rfl
  | cons p rest ih =>
    rcases p with ⟨k, v⟩
    cases v <;> simp [attrsTemp, specAttrPiece, List.filterMap_cons, ih]

theorem strList_append (l1 l2 : List Val) :
    strList (l1 ++ l2) = strList l1 ++ strList l2 := by
  induction l1 with
  | nil => rfl
  | cons x xs ih => simp [strList, ih]

theorem valStr_vtag (n : String) (ty : Nat) (c : List Val)
    (a : List (String × AttrVal)) :
    valStr (.vtag n ty c a) = tagWrap n ty a c (sjoin spacer (strList c)) := rfl

/-! ### Claim theorems -/

/-- C2: Flattening is invariant under nesting of non-atomic iterables:
constructing a container with contents `[a, [b, [c, d]], e]` yields the same
flat contents as `[a, b, c, d, e]` (first conjunct); wrapping any
sub-sequence of constructor arguments in a non-atomic iterable leaves the
flattened result unchanged, at any position, hence at any nesting depth
(second conjunct); and flattening processes arguments left-to-right,
appending depth-first (third conjunct). -/
theorem C2_flatten_nesting_invariant (a b c d e : Val) (rep1 rep2 rep : String)
    (attrs : List (String × AttrVal)) (pre inner post : List Val) :
    tagListNew [a, .vobj none (some [b, .vobj none (some [c, d]) rep2]) rep1, e] attrs
      = tagListNew [a, b, c, d, e] attrs
    ∧ flattenList (pre ++ .vobj none (some inner) rep :: post)
      = flattenList (pre ++ inner ++ post)
    ∧ flattenList (pre ++ post) = flattenList pre ++ flattenList post := by
  refine ⟨?_, ?_, flattenList_append pre post⟩
  · unfold tagListNew
    congr 1
    have h1 : r_flatten (Val.vobj none (some [c, d]) rep2) = flattenList [c, d] := rfl
    have h2 : r_flatten (Val.vobj none
        (some [b, Val.vobj none (some [c, d]) rep2]) rep1)
        = flattenList [b, Val.vobj none (some [c, d]) rep2] := rfl
    simp [flattenList, h1, h2, List.append_assoc]
  · have h3 : r_flatten (Val.vobj none (some inner) rep) = flattenList inner := rfl
    rw [flattenList_append pre (Val.vobj none (some inner) rep :: post),
      List.append_assoc, flattenList_append pre (inner ++ post),
      flattenList_append inner post]
    simp [flattenList, h3]

/-- C6: Atomicity override: a string reached by the flattener is appended as
a single child and never exploded into its characters (first and third
conjuncts), and any object whose `_HTMLAtomic` marker is present and truthy
is appended as-is and never iterated, whatever its iterability (second
conjunct, `elems` arbitrary). -/
theorem C6_atomicity_override (s rep : String) (elems : Option (List Val))
    (pre post : List Val) :
    r_flatten (.vstr s) = [.vstr s]
    ∧ r_flatten (.vobj (some true) elems rep) = [.vobj (some true) elems rep]
    ∧ flattenList (pre ++ .vstr s :: post)
      = flattenList pre ++ .vstr s :: flattenList post := by
  refine ⟨rfl, ?_, ?_⟩
  · cases elems <;> rfl
  · rw [flattenList_append]
    rfl

/-- C7: constructing a `Tag` with a `tagType` outside
`{NORMAL, LONE, FORCED_PAIR}` fails with the `ValueError` of `Tag.digest`
at construction time — the error does not depend on the contents, which are
never stored — while a recognized `tagType` constructs successfully (so no
failure is deferred to render time). -/
theorem C7_invalid_tagtype (name : String) (ty : Nat) (contents : List Val)
    (attrs : List (String × AttrVal)) :
    (¬(ty = NORMAL ∨ ty = LONE ∨ ty = FORCED_PAIR) →
      mkTag name ty contents attrs
        = .error ("Unknown tagType " ++ toString ty ++ " in Tag.__init__ ("
            ++ name ++ ")")
      ∧ ∀ contents', mkTag name ty contents attrs = mkTag name ty contents' attrs)
    ∧ ((ty = NORMAL ∨ ty = LONE ∨ ty = FORCED_PAIR) →
      mkTag name ty contents attrs = .ok (tagNew name ty contents attrs)) := by
  constructor
  · intro h
    exact ⟨by simp [mkTag, h], fun c' => by simp [mkTag, h]⟩
  · intro h
    simp [mkTag, h]

theorem C7_invalid_tagtype_witness :
    mkTag "div" 7 [] []
      = .error ("Unknown tagType " ++ toString 7 ++ " in Tag.__init__ ("
          ++ "div" ++ ")")
    ∧ mkTag "option" NORMAL [] [] = .ok (tagNew "option" NORMAL [] []) :=
  ⟨((C7_invalid_tagtype "div" 7 [] []).1 (by decide)).1,
    (C7_invalid_tagtype "option" NORMAL [] []).2 (Or.inl rfl)⟩

/-- C8: non-iterable fallback: a value that is not atomic and does not
support iteration is appended as-is by `_r_flatten`; the function is total,
so no error is raised. -/
theorem C8_noniterable_fallback (x : Val) (h1 : atomicOverride x = false)
    (h2 : iterOf x = none) : r_flatten x = [x] :=
  r_flatten_of_flat (by simp [flatVal, h1, h2])

theorem C8_noniterable_fallback_witness :
    atomicOverride (Val.vobj none none "z") = false
    ∧ iterOf (Val.vobj none none "z") = none
    ∧ r_flatten (Val.vobj none none "z") = [Val.vobj none none "z"] :=
  ⟨rfl, rfl, C8_noniterable_fallback (Val.vobj none none "z") rfl rfl⟩

/-- C10: implicit flatness invariant: every element of a flattened contents
list is atomic or non-iterable (first conjunct); re-flattening a flat list
is the identity (second conjunct); consequently extending a constructed
`Tag` re-flattens its stored contents into themselves, so the old contents
survive exactly, in order, as a prefix of the new contents (third
conjunct). -/
theorem C10_flatness_invariant (xs l : List Val) (n : String) (ty : Nat)
    (cs x : List Val) (a na : List (String × AttrVal))
    (hty : ty = NORMAL ∨ ty = LONE ∨ ty = FORCED_PAIR) :
    (∀ y ∈ flattenList xs, flatVal y = true)
    ∧ ((∀ y ∈ l, flatVal y = true) → flattenList l = l)
    ∧ callTag n ty (flattenList cs) a x na
        = .ok (.vtag n ty (flattenList cs ++ flattenList x)
            (normalizeAttrs (dictUpdate a na))) := by
  refine ⟨flat_flattenList xs, fun h => flattenList_of_flat h, ?_⟩
  rw [callTag, mkTag, if_pos hty, tagNew, flattenList_append, flattenList_idem]

theorem C10_flatness_invariant_witness :
    (∀ y ∈ flattenList [Val.vobj none (some [Val.vstr "a"]) "r"], flatVal y = true)
    ∧ ((∀ y ∈ [Val.vstr "a"], flatVal y = true) →
        flattenList [Val.vstr "a"] = [Val.vstr "a"])
    ∧ callTag "div" NORMAL (flattenList [Val.vstr "a"]) [] [Val.vstr "b"] []
        = .ok (.vtag "div" NORMAL (flattenList [Val.vstr "a"] ++ flattenList [Val.vstr "b"])
            (normalizeAttrs (dictUpdate [] []))) :=
  C10_flatness_invariant [Val.vobj none (some [Val.vstr "a"]) "r"] [Val.vstr "a"]
    "div" NORMAL [Val.vstr "a"] [Val.vstr "b"] [] [] (Or.inl rfl)

/-- C3: extension never mutates the receiver: in this embedding `__call__`
is a pure function; calling a primitive container built from flat contents
`cs` and normalized attributes `a` with new contents `x` and attribute
updates `na` constructs a fresh container of the same variant from the
receiver's extra arguments, the receiver's contents, and the newly
flattened `x`, with attributes equal to a copy of `a` updated by `na`;
the receiver's `cs` and `a` appear unchanged inside the result. -/
theorem C3_extension_builds_fresh (n : String) (ty : Nat) (cs x : List Val)
    (a na : List (String × AttrVal))
    (hty : ty = NORMAL ∨ ty = LONE ∨ ty = FORCED_PAIR)
    (hcs : ∀ y ∈ cs, flatVal y = true)
    (ha : normedAttrs a) (hna : keysNormed na) :
    callTag n ty cs a x na
      = .ok (.vtag n ty (cs ++ flattenList x) (dictUpdate a na))
    ∧ callTagList cs a x na
      = .vtaglist (cs ++ flattenList x) (dictUpdate a na) := by
  have hflat : flattenList (cs ++ x) = cs ++ flattenList x := by
    rw [flattenList_append, flattenList_of_flat hcs]
  have hattrs : normalizeAttrs (dictUpdate a na) = dictUpdate a na :=
    normalizeAttrs_of_normed (normedAttrs_dictUpdate ha hna)
  constructor
  · rw [callTag, mkTag, if_pos hty, tagNew, hflat, hattrs]
  · rw [callTagList, tagListNew, hflat, hattrs]

theorem C3_extension_builds_fresh_witness :
    callTag "a" NORMAL [Val.vstr "u"] [("id", .other "1")] [Val.vstr "w"]
        [("href", .other "h")]
      = .ok (.vtag "a" NORMAL ([Val.vstr "u"] ++ flattenList [Val.vstr "w"])
          (dictUpdate [("id", .other "1")] [("href", .other "h")]))
    ∧ callTagList [Val.vstr "u"] [("id", .other "1")] [Val.vstr "w"]
        [("href", .other "h")]
      = .vtaglist ([Val.vstr "u"] ++ flattenList [Val.vstr "w"])
          (dictUpdate [("id", .other "1")] [("href", .other "h")]) :=
  C3_extension_builds_fresh "a" NORMAL [Val.vstr "u"] [Val.vstr "w"]
    [("id", .other "1")] [("href", .other "h")] (Or.inl rfl)
    (by decide)
    (by
      constructor
      · simp
      · intro p hp
        rw [List.mem_singleton] at hp
        subst hp
        decide)
    (by
      intro p hp
      rw [List.mem_singleton] at hp
      subst hp
      decide)

/-- C9: composite delegation: a `Pseudotag` built by `Pseudotag.__init__`
from any tuple-returning `heart` result and any `skeleton` renders exactly
as its outer container, its `contents` are those of its inner container,
and indexed access reads the inner container's contents; concretely,
`LABIN('T', 'n')` — whose `heart` returns a genuine tuple, so construction
succeeds — renders as its outer
`TagList(LABEL(for_ = 'n')('T'), INPUT(name = 'n'))` skeleton, while its
contents and indexing delegate to the (empty) inner `INPUT` tag. -/
theorem C9_pseudotag_delegation (inner : Val) (extra : List Val)
    (skel : Val → List Val → Val) (attrs : List (String × AttrVal)) (i : Nat) :
    pseudotagStr (pseudotagNew inner extra skel attrs) = valStr (skel inner extra)
    ∧ (pseudotagNew inner extra skel attrs).contents = containerContents inner
    ∧ pseudotagGetItem (pseudotagNew inner extra skel attrs) i
        = (containerContents inner).get? i
    ∧ Except.map pseudotagStr (labinNew (Val.vstr "T") "n" [] [])
        = .ok "<label for=\"n\">T</label><input name=\"n\" />"
    ∧ Except.map (fun p => (p.contents, pseudotagGetItem p 0))
        (labinNew (Val.vstr "T") "n" [] [])
        = .ok (containerContents (.vtag "input" NORMAL [] [("name", .other "n")]),
            none) :=
  ⟨rfl, rfl, rfl, rfl, rfl⟩

/-- C1: element rendering follows the tag-kind rule of the spec: `Tag.wrap`
coincides with the spec's three-way rule (first conjunct, `specElementRender`
transcribing the spec's words), and the four round-trip examples hold:
`str(Tag('div', NORMAL))`, `str(Tag('div', NORMAL)('x'))`,
`str(Tag('br', LONE))`, `str(Tag('script', FORCED_PAIR))`. -/
theorem C1_element_rendering (n : String) (ty : Nat) (c : List Val)
    (a : List (String × AttrVal)) :
    valStr (.vtag n ty c a)
      = specElementRender n ty a (!c.isEmpty) (sjoin spacer (strList c))
    ∧ valStr (tagNew "div" NORMAL [] []) = "<div />"
    ∧ Except.map valStr (callTag "div" NORMAL [] [] [.vstr "x"] []) = .ok "<div>x</div>"
    ∧ valStr (tagNew "br" LONE [] []) = "<br>"
    ∧ valStr (tagNew "script" FORCED_PAIR [] []) = "<script></script>" := by
  refine ⟨?_, rfl, rfl, rfl, rfl⟩
  by_cases hne : c.isEmpty <;> by_cases hfp : ty = FORCED_PAIR <;>
    by_cases hl : ty = LONE <;>
      simp [valStr_vtag, tagWrap, specElementRender, hne, hfp, hl, openTagGuts,
        attrsTemp_eq_filterMap, spacer, String.append_empty, String.empty_append]

/-- C5: attribute rendering in the open tag: `_openTagGuts` renders each
attribute by the spec's per-attribute rule (first conjunct): a `True` value
gives the bare name, a `False` value is omitted, and any other value gives
`name="str(v)"` with the value embedded verbatim (no escaping — the last
example passes a value containing a double quote through unchanged). -/
theorem C5_attribute_rendering (name k sval : String)
    (attrs : List (String × AttrVal)) :
    openTagGuts name attrs
      = sjoin " " (name :: attrs.filterMap fun p => specAttrPiece p.1 p.2)
    ∧ specAttrPiece k .tru = some k
    ∧ specAttrPiece k .fls = none
    ∧ specAttrPiece k (.other sval) = some (k ++ "=\"" ++ sval ++ "\"")
    ∧ valStr (tagNew "option" NORMAL [.vstr "Fish"] [("selected", .tru)])
        = "<option selected>Fish</option>"
    ∧ valStr (tagNew "option" NORMAL [.vstr "Fowl"] [("selected", .fls)])
        = "<option>Fowl</option>"
    ∧ valStr (tagNew "div" NORMAL [] [("title", .other "a\"b")])
        = "<div title=\"a\"b\" />" := by
  refine ⟨?_, rfl, rfl, rfl, rfl, rfl, rfl⟩
  rw [openTagGuts, attrsTemp_eq_filterMap]

/-! ### Helper lemmas for comparing renders -/

theorem append_mid_cancel {a g g' t : String}
    (h : a ++ (g ++ t) = a ++ (g' ++ t)) : g = g' :=
  str_append_right_cancel (str_append_left_cancel h)

theorem nodup_middle {P Q : List String} {k : String}
    (h : (P ++ k :: Q).Nodup) : k ∉ P ∧ k ∉ Q := by
  rw [List.nodup_append] at h
  rcases h with ⟨_, h2, h3⟩
  rw [List.nodup_cons] at h2
  exact ⟨fun hk => h3 hk (by simp), h2.1⟩

theorem sjoin_insert_length (sep : String) {L : List String} (r : String)
    (B : List String) (hL : L ≠ []) :
    (sjoin sep (L ++ r :: B)).length
      = (sjoin sep (L ++ B)).length + r.length + sep.length := by
  cases B with
  | nil =>
    rw [sjoin_append sep L (show ([r] : List String) ≠ [] by simp)]
    simp only [List.append_nil]
    rw [String.length_append, sjoinPre_length sep hL]
    simp only [sjoin]
    omega
  | cons b bs =>
    rw [sjoin_append sep L (show r :: b :: bs ≠ [] by simp),
      sjoin_append sep L (show b :: bs ≠ [] by simp),
      sjoin_cons sep r (show b :: bs ≠ [] by simp)]
    simp only [String.length_append]
    omega

theorem sjoin_middle_ne (sep : String) (L : List String)
    {r r' : String} (B : List String) (hr : r ≠ r') :
    sjoin sep (L ++ r :: B) ≠ sjoin sep (L ++ r' :: B) := by
  intro h
  apply hr
  rw [sjoin_append sep L (show r :: B ≠ [] by simp),
    sjoin_append sep L (show r' :: B ≠ [] by simp)] at h
  have h2 := str_append_left_cancel h
  cases B with
  | nil => exact h2
  | cons b bs =>
    rw [sjoin_cons sep r (show b :: bs ≠ [] by simp),
      sjoin_cons sep r' (show b :: bs ≠ [] by simp)] at h2
    exact str_append_right_cancel (str_append_right_cancel h2)

/-- `__call__` on a `Tag` whose stored contents are flat (as constructed
contents always are) succeeds and re-flattens the old contents into
themselves. -/
theorem callTag_ok {n : String} {ty : Nat} {cs x : List Val}
    {a na : List (String × AttrVal)}
    (hty : ty = NORMAL ∨ ty = LONE ∨ ty = FORCED_PAIR)
    (hcs : ∀ y ∈ cs, flatVal y = true) :
    callTag n ty cs a x na
      = .ok (.vtag n ty (cs ++ flattenList x)
          (normalizeAttrs (dictUpdate a na))) := by
  rw [callTag, mkTag, if_pos hty, tagNew, flattenList_append,
    flattenList_of_flat hcs]

/-- Two `Tag` renders with the same name, kind, contents and content string
but different open-tag guts are different strings. -/
theorem tagWrap_guts_ne {n : String} {ty : Nat}
    {a a' : List (String × AttrVal)} {c : List Val} {J : String}
    (hg : openTagGuts n a ≠ openTagGuts n a') :
    tagWrap n ty a c J ≠ tagWrap n ty a' c J := by
  intro h
  apply hg
  simp only [tagWrap] at h
  by_cases hP : (!c.isEmpty) = true ∨ ty = FORCED_PAIR
  · rw [if_pos hP, if_pos hP] at h
    simp only [String.append_assoc] at h
    exact append_mid_cancel h
  · rw [if_neg hP, if_neg hP] at h
    by_cases hl : ty = LONE
    · rw [if_pos hl, if_pos hl] at h
      simp only [String.append_assoc] at h
      exact append_mid_cancel h
    · rw [if_neg hl, if_neg hl] at h
      simp only [String.append_assoc] at h
      exact append_mid_cancel h

/-- C4, counterexample to the claim as stated: extending the empty
`Tag('script', FORCED_PAIR)` with the non-empty argument tuple `('',)`
yields a container that renders identically, and extending
`Tag('div', NORMAL)` with the brand-new attribute key `hidden=False` also
leaves the rendering unchanged — yet the claim requires `str` to differ in
both situations. -/
theorem C4_counterexample :
    ([Val.vstr ""] ≠ ([] : List Val))
    ∧ Except.map valStr (callTag "script" FORCED_PAIR [] [] [Val.vstr ""] [])
      = .ok (valStr (Val.vtag "script" FORCED_PAIR [] []))
    ∧ ("hidden" ∉ ([] : List (String × AttrVal)).map Prod.fst)
    ∧ Except.map valStr (callTag "div" NORMAL [] [] [] [("hidden", .fls)])
      = .ok (valStr (Val.vtag "div" NORMAL [] [])) :=
  ⟨by simp, rfl, by simp, rfl⟩

/-- C4 (amended): for a `Tag` with valid kind, flat contents and normalized
attributes, extension changes the rendering whenever (A) no attributes are
updated and the flattened new contents have a non-empty joined rendering,
or (B) no contents are added and the update introduces one new key (in HTML
form) whose value is not `False`, or (C) no contents are added and the
update changes the stored value of one existing key.  (The original claim's
"x non-empty" must be weakened to "the flattened x renders non-empty", and
its "new key" must exclude `False`-valued keys, per the counterexample.) -/
theorem C4_extension_changes_render (n : String) (ty : Nat) (cs x : List Val)
    (a na : List (String × AttrVal))
    (hty : ty = NORMAL ∨ ty = LONE ∨ ty = FORCED_PAIR)
    (hcs : ∀ y ∈ cs, flatVal y = true)
    (ha : normedAttrs a)
    (hcase :
      (na = [] ∧ sjoin spacer (strList (flattenList x)) ≠ "")
      ∨ (x = [] ∧ ∃ k v, na = [(k, v)] ∧ v ≠ .fls ∧ specialAttr k = k
          ∧ k ∉ a.map Prod.fst)
      ∨ (x = [] ∧ ∃ k v v', na = [(k, v')] ∧ (k, v) ∈ a ∧ v ≠ v')) :
    Except.map valStr (callTag n ty cs a x na)
      ≠ .ok (valStr (.vtag n ty cs a)) := by
  rw [callTag_ok hty hcs]
  have hne : valStr (Val.vtag n ty (cs ++ flattenList x)
      (normalizeAttrs (dictUpdate a na))) ≠ valStr (Val.vtag n ty cs a) := by
    rcases hcase with ⟨hna, hs⟩ | ⟨hx, k, v, hna, hv, hsk, hknotin⟩
      | ⟨hx, k, v, v', hna, hmem, hvv⟩
    · -- (A) contents grow by something that renders non-empty
      subst hna
      rw [show dictUpdate a [] = a from rfl, normalizeAttrs_of_normed ha,
        valStr_vtag, valStr_vtag]
      simp only [spacer] at hs ⊢
      have hslen : 0 < (sjoin "" (strList (flattenList x))).length :=
        str_length_pos_of_ne hs
      have hx0 : flattenList x ≠ [] := by
        intro h0
        apply hs
        rw [h0]
        rfl
      have hcne : cs ++ flattenList x ≠ [] :=
        fun h => hx0 (List.append_eq_nil.mp h).2
      have hcnew : (!(cs ++ flattenList x).isEmpty) = true := by
        rcases hemp : cs ++ flattenList x with _ | ⟨y, ys⟩
        · exact absurd hemp hcne
        · rfl
      have hJ' : sjoin "" (strList (cs ++ flattenList x))
          = sjoin "" (strList cs) ++ sjoin "" (strList (flattenList x)) := by
        rw [strList_append, sjoin_empty_sep_append]
      rw [hJ']
      have e0 : ("" : String).length = 0 := rfl
      have e1 : ("<" : String).length = 1 := rfl
      have e2 : (">" : String).length = 1 := rfl
      have e3 : ("</" : String).length = 2 := rfl
      have e4 : (" />" : String).length = 3 := rfl
      simp only [tagWrap, spacer]
      by_cases hPold : (!cs.isEmpty) = true ∨ ty = FORCED_PAIR
      · rw [if_pos (Or.inl hcnew), if_pos hPold]
        intro heq
        have hlen := congrArg String.length heq
        simp only [String.length_append] at hlen
        omega
      · rw [if_pos (Or.inl hcnew), if_neg hPold]
        by_cases hl : ty = LONE
        · rw [if_pos hl]
          intro heq
          have hlen := congrArg String.length heq
          simp only [String.length_append] at hlen
          omega
        · rw [if_neg hl]
          intro heq
          have hlen := congrArg String.length heq
          simp only [String.length_append] at hlen
          omega
    · -- (B) one genuinely new, non-False attribute key
      subst hx
      subst hna
      rw [show flattenList ([] : List Val) = [] from rfl, List.append_nil]
      have hupd : dictUpdate a [(k, v)] = a ++ [(k, v)] := by
        show dictInsert a k v = _
        exact dictInsert_not_mem v hknotin
      have hnormd : normedAttrs (a ++ [(k, v)]) := by
        rw [← dictInsert_not_mem v hknotin]
        exact normedAttrs_dictInsert v ha hsk
      rw [hupd, normalizeAttrs_of_normed hnormd, valStr_vtag, valStr_vtag]
      apply tagWrap_guts_ne
      apply str_ne_of_length_ne
      obtain ⟨rv, hrv⟩ : ∃ rv, attrsTemp [(k, v)] = [rv] := by
        cases v with
        | tru => exact ⟨k, rfl⟩
        | fls => exact absurd rfl hv
        | other s => exact ⟨k ++ "=\"" ++ s ++ "\"", rfl⟩
      have hsplit : openTagGuts n (a ++ [(k, v)])
          = sjoin " " ((n :: attrsTemp a) ++ rv :: []) := by
        rw [openTagGuts, attrsTemp_append, hrv]
        simp
      have hlen := sjoin_insert_length " " rv []
        (show (n :: attrsTemp a) ≠ [] by simp)
      rw [List.append_nil] at hlen
      rw [hsplit, hlen]
      have e5 : (" " : String).length = 1 := rfl
      have hguts : openTagGuts n a = sjoin " " (n :: attrsTemp a) := rfl
      rw [hguts]
      omega
    · -- (C) one existing attribute key changes value
      subst hx
      subst hna
      rw [show flattenList ([] : List Val) = [] from rfl, List.append_nil]
      obtain ⟨P, Q, hPQ⟩ := List.append_of_mem hmem
      subst hPQ
      have hkeys : (P.map Prod.fst ++ k :: Q.map Prod.fst).Nodup := by
        have h1 := ha.1
        simpa using h1
      obtain ⟨hkP, hkQ⟩ := nodup_middle hkeys
      have hupd : dictUpdate (P ++ (k, v) :: Q) [(k, v')] = P ++ (k, v') :: Q := by
        show dictInsert (P ++ (k, v) :: Q) k v' = _
        exact dictInsert_replace v v' hkP hkQ
      have hnormd : normedAttrs (P ++ (k, v') :: Q) := by
        constructor
        · have h1 : (P ++ (k, v') :: Q).map Prod.fst
              = (P ++ (k, v) :: Q).map Prod.fst := by simp
          rw [h1]
          exact ha.1
        · intro p hp
          rcases List.mem_append.mp hp with hp | hp
          · exact ha.2 p (by simp [hp])
          · rcases List.mem_cons.mp hp with hp | hp
            · subst hp
              exact ha.2 (k, v) (by simp)
            · exact ha.2 p (by simp [hp])
      rw [hupd, normalizeAttrs_of_normed hnormd, valStr_vtag, valStr_vtag]
      apply tagWrap_guts_ne
      have hsplit : ∀ w : AttrVal, openTagGuts n (P ++ (k, w) :: Q)
          = sjoin " " ((n :: attrsTemp P) ++ (attrsTemp [(k, w)] ++ attrsTemp Q)) := by
        intro w
        rw [openTagGuts,
          show P ++ (k, w) :: Q = P ++ ([(k, w)] ++ Q) from rfl,
          attrsTemp_append, attrsTemp_append]
        simp
      rw [hsplit v', hsplit v]
      have e5 : (" " : String).length = 1 := rfl
      have e6 : ("=\"" : String).length = 2 := rfl
      have e7 : ("\"" : String).length = 1 := rfl
      rcases v with _ | _ | s <;> rcases v' with _ | _ | s' <;>
        simp only [attrsTemp, List.nil_append, List.singleton_append]
      · exact absurd rfl hvv
      · -- tru → fls : rendered piece disappears
        apply str_ne_of_length_ne
        rw [sjoin_insert_length " " k (attrsTemp Q)
          (show (n :: attrsTemp P) ≠ [] by simp)]
        omega
      · -- tru → other : bare name vs name="value"
        apply sjoin_middle_ne " " (n :: attrsTemp P) (attrsTemp Q)
        apply str_ne_of_length_ne
        simp only [String.length_append]
        omega
      · -- fls → tru : rendered piece appears
        apply str_ne_of_length_ne
        rw [sjoin_insert_length " " k (attrsTemp Q)
          (show (n :: attrsTemp P) ≠ [] by simp)]
        omega
      · exact absurd rfl hvv
      · -- fls → other : rendered piece appears
        apply str_ne_of_length_ne
        rw [sjoin_insert_length " " (k ++ "=\"" ++ s' ++ "\"") (attrsTemp Q)
          (show (n :: attrsTemp P) ≠ [] by simp)]
        omega
      · -- other → tru : name="value" vs bare name
        apply sjoin_middle_ne " " (n :: attrsTemp P) (attrsTemp Q)
        apply str_ne_of_length_ne
        simp only [String.length_append]
        omega
      · -- other → fls : rendered piece disappears
        apply str_ne_of_length_ne
        rw [sjoin_insert_length " " (k ++ "=\"" ++ s ++ "\"") (attrsTemp Q)
          (show (n :: attrsTemp P) ≠ [] by simp)]
        omega
      · -- other → other : values differ verbatim in the rendered piece
        have hss : s ≠ s' := fun h => hvv (by rw [h])
        apply sjoin_middle_ne " " (n :: attrsTemp P) (attrsTemp Q)
        intro h
        apply hss
        have h2 := str_append_right_cancel h
        exact (str_append_left_cancel h2).symm
  simpa [Except.map] using hne

theorem C4_extension_changes_render_witness :
    (∀ y ∈ ([] : List Val), flatVal y = true)
    ∧ normedAttrs []
    ∧ sjoin spacer (strList (flattenList [Val.vstr "y"])) ≠ ""
    ∧ Except.map valStr (callTag "div" NORMAL [] [] [Val.vstr "y"] [])
        ≠ .ok (valStr (Val.vtag "div" NORMAL [] [])) :=
  ⟨by simp, ⟨by simp, by intro p hp; simp at hp⟩, by decide,
    C4_extension_changes_render "div" NORMAL [] [Val.vstr "y"] [] []
      (Or.inl rfl) (by simp) ⟨by simp, by intro p hp; simp at hp⟩
      (Or.inl ⟨rfl, by decide⟩)⟩

end HTMLGen
